import Mathlib

/-!
# Verification of `convert_file.py`

A shallow embedding of the tabular converters (text/CSV/JSON), the path
normalisation helper, and the external-tool image-conversion wrappers of
`convert_file.py`, together with proofs settling the specification claims.

File contents are modelled as `List Char`.  Reading a file in Python text
mode applies universal-newline translation, modelled by `univNewlines`.
-/

namespace ConvertFile

/-- The ASCII whitespace characters stripped by Python `str.strip()`
(`' '`, `'\t'`, `'\n'`, `'\r'`, `'\x0b'`, `'\x0c'`; the model restricts
attention to ASCII input, as the repository's data is ASCII). -/
def pyIsSpace (c : Char) : Bool :=
  c = ' ' || c = '\t' || c = '\n' || c = '\r' || c = '\x0b' || c = '\x0c'

/-- Python `str.lstrip()`: drop leading whitespace. -/
def pyLstrip (l : List Char) : List Char := l.dropWhile pyIsSpace

/-- Python `str.rstrip()`: drop trailing whitespace. -/
def pyRstrip (l : List Char) : List Char := (l.reverse.dropWhile pyIsSpace).reverse

/-- Python `str.strip()`: drop whitespace at both ends. -/
def pyStrip (l : List Char) : List Char := pyLstrip (pyRstrip l)

/-- Python `str.split(sep)` for a one-character separator `sep`:
`"".split(sep) = [""]`, and every occurrence of `sep` starts a new field. -/
def splitOnChar (sep : Char) : List Char → List (List Char)
  | [] => [[]]
  | c :: cs =>
    if c = sep then [] :: splitOnChar sep cs
    else
      match splitOnChar sep cs with
      | [] => [[c]]
      | f :: fs => (c :: f) :: fs

/-- Python `sep.join(fields)` for a one-character separator. -/
def joinWith (sep : Char) : List (List Char) → List Char
  | [] => []
  | [x] => x
  | x :: xs => x ++ sep :: joinWith sep xs

/-- Python `file.readlines()` on already newline-translated content:
split after every `'\n'`, each line keeping its terminator; a final
unterminated line is kept as well. -/
def readlines : List Char → List (List Char)
  | [] => []
  | c :: cs =>
    if c = '\n' then ['\n'] :: readlines cs
    else
      match readlines cs with
      | [] => [[c]]
      | l :: ls => (c :: l) :: ls

/-- Universal-newline translation performed by Python text-mode reads:
`"\r\n"` and `"\r"` both become `"\n"`. -/
def univNewlines : List Char → List Char
  | [] => []
  | '\r' :: '\n' :: cs => '\n' :: univNewlines cs
  | '\r' :: cs => '\n' :: univNewlines cs
  | c :: cs => c :: univNewlines cs

/-! ## CSV writer (Python `csv.writer`, excel dialect, QUOTE_MINIMAL) -/

/-- A field must be quoted when it contains the delimiter, the quote
character, or a line break (QUOTE_MINIMAL). -/
def fieldNeedsQuote (f : List Char) : Bool :=
  f.any (fun c => c = ',' || c = '"' || c = '\r' || c = '\n')

/-- Double every quote character inside a quoted field. -/
def escapeQuotes (f : List Char) : List Char :=
  f.flatMap (fun c => if c = '"' then ['"', '"'] else [c])

/-- Encode one field.  `forceQuote` is set for the single empty field of a
one-field row, which `csv.writer` always quotes (so that the row is not
written as a blank line). -/
def encodeField (forceQuote : Bool) (f : List Char) : List Char :=
  if fieldNeedsQuote f || forceQuote then '"' :: escapeQuotes f ++ ['"'] else f

/-- Encode one row, without the line terminator. -/
def csvWriteRow (row : List (List Char)) : List Char :=
  match row with
  | [f] => encodeField f.isEmpty f
  | _ => joinWith ',' (row.map (encodeField false))

/-- `csv.writer(...).writerows(rows)` on a file opened with `newline=""`:
each encoded row is terminated by the dialect line terminator `"\r\n"`. -/
def csvWriteAll (rows : List (List (List Char))) : List Char :=
  (rows.map (fun r => csvWriteRow r ++ ['\r', '\n'])).flatten

/-! ## CSV reader (Python `csv.reader`, excel dialect)

The reader is fed lines from a file opened in plain text mode, so its
input has already gone through `univNewlines` and contains no `'\r'`;
the state machine below therefore treats `'\n'` as the only end-of-line
character.  States follow CPython's `_csv.c` (`START_RECORD` is inlined
into the start-of-input/after-newline positions). -/

inductive RState where
  | startField
  | inField
  | inQuoted
  | quoteInQuoted
deriving DecidableEq

mutual

/-- The `csv.reader` character state machine.  `f` is the field being
accumulated, `r` the fields of the record being accumulated. -/
def csvParseAux : RState → List Char → List (List Char) → List Char →
    List (List (List Char))
  | _, f, r, [] => [r ++ [f]]
  | .startField, _, r, c :: cs =>
    if c = '\n' then (r ++ [[]]) :: csvParseStart cs
    else if c = '"' then csvParseAux .inQuoted [] r cs
    else if c = ',' then csvParseAux .startField [] (r ++ [[]]) cs
    else csvParseAux .inField [c] r cs
  | .inField, f, r, c :: cs =>
    if c = '\n' then (r ++ [f]) :: csvParseStart cs
    else if c = ',' then csvParseAux .startField [] (r ++ [f]) cs
    else csvParseAux .inField (f ++ [c]) r cs
  | .inQuoted, f, r, c :: cs =>
    if c = '"' then csvParseAux .quoteInQuoted f r cs
    else csvParseAux .inQuoted (f ++ [c]) r cs
  | .quoteInQuoted, f, r, c :: cs =>
    if c = '"' then csvParseAux .inQuoted (f ++ ['"']) r cs
    else if c = ',' then csvParseAux .startField [] (r ++ [f]) cs
    else if c = '\n' then (r ++ [f]) :: csvParseStart cs
    else csvParseAux .inField (f ++ [c]) r cs
/-- `START_RECORD`: a bare `'\n'` yields an empty record `[]`; end of
input yields nothing; any other character starts a field. -/
def csvParseStart : List Char → List (List (List Char))
  | [] => []
  | c :: cs =>
    if c = '\n' then [] :: csvParseStart cs
    else if c = '"' then csvParseAux .inQuoted [] [] cs
    else if c = ',' then csvParseAux .startField [] [[]] cs
    else csvParseAux .inField [c] [] cs

end

/-- Parse a whole (newline-translated) CSV file into its records. -/
def csvParse (cs : List Char) : List (List (List Char)) :=
  csvParseStart cs

/-! ## `txt_to_csv` and `csv_to_txt` -/

/-- The row list built by the loop of `txt_to_csv`:
`for line in lines: data.append(line.strip().split(","))`. -/
def txtRows (content : List Char) : List (List (List Char)) :=
  (readlines (univNewlines content)).map (fun line => splitOnChar ',' (pyStrip line))

/-- `txt_to_csv`: the content of the written CSV file, as a function of the
content of the input text file (the input is read in text mode, hence the
newline translation; the output is opened with `newline=""`, hence written
verbatim). -/
def txt_to_csv (content : List Char) : List Char :=
  csvWriteAll (txtRows content)

/-- `csv_to_txt`: the content of the written text file, as a function of
the content of the input CSV file.  The CSV file is read in text mode
(newline translation applies) and each row is written as
`",".join(row) + "\n"`. -/
def csv_to_txt (content : List Char) : List Char :=
  ((csvParse (univNewlines content)).map (fun row => joinWith ',' row ++ ['\n'])).flatten

/-- The text → CSV → text round trip of the two functions above. -/
def txtCsvRoundTrip (content : List Char) : List Char :=
  csv_to_txt (txt_to_csv content)

/-! ## `csv_to_json` (`csv.DictReader` + `json.dump`) -/

/-- A value of a row mapping produced by `csv.DictReader`: a CSV field
(string), the `restval` `None` filled in for a row shorter than the
header, or the list of leftover fields stored under the `restkey` for a
row longer than the header. -/
inductive DVal where
  | str : List Char → DVal
  | null : DVal
  | extra : List (List Char) → DVal
deriving DecidableEq

/-- A key of a row mapping: a header column (`some`), or the `restkey`
`None` (`none`). -/
abbrev DKey := Option (List Char)

/-- Whether a `DVal` is a string (a genuine CSV field, rather than a
`None` or a rest-list). -/
def DVal.isStr : DVal → Bool
  | .str _ => true
  | _ => false

/-- One row mapping of `csv.DictReader` (CPython `DictReader.__next__`):
`dict(zip(fieldnames, row))`, then the extra fields under the `restkey`,
then `restval` (`None`) for the missing fieldnames.  The mapping is
modelled as an association list in insertion order; this is faithful to
the Python `dict` whenever the fieldnames are pairwise distinct (a
duplicated fieldname would collapse in the `dict`). -/
def mkDict (header row : List (List Char)) : List (DKey × DVal) :=
  ((header.zip row).map (fun p => (some p.1, DVal.str p.2)))
    ++ (if header.length < row.length then [(none, DVal.extra (row.drop header.length))] else [])
    ++ ((header.drop row.length).map (fun k => (some k, DVal.null)))

/-- `csv.DictReader` applied to the parsed records: the first record is
the header (`fieldnames`); iteration skips blank records. -/
def dictReaderRows (records : List (List (List Char))) : List (List (DKey × DVal)) :=
  match records with
  | [] => []
  | header :: rest => (rest.filter (fun r => r ≠ [])).map (mkDict header)

/-- `csv_to_json`: the JSON array (list of row mappings) dumped to the
output file, as a function of the content of the input CSV file. -/
def csv_to_json (content : List Char) : List (List (DKey × DVal)) :=
  dictReaderRows (csvParse (univNewlines content))

/-! ## `json_to_csv` (`json.load` + `csv.DictWriter`) -/

/-- The exceptions `json_to_csv` can raise on well-formed JSON input. -/
inductive JsonCsvErr where
  | indexError : JsonCsvErr
  | valueError : List (List Char) → JsonCsvErr
deriving DecidableEq

/-- Python `rowdict.get(key, restval)` with `restval = ""` on an
association list with distinct keys. -/
def dictGet (row : List (List Char × List Char)) (key : List Char) : List Char :=
  match row.find? (fun p => p.1 = key) with
  | some p => p.2
  | none => []

/-- `csv.DictWriter._dict_to_list` with the default `extrasaction="raise"`
and `restval=""`: raise `ValueError` when the row has a key outside
`fieldnames`, otherwise emit `rowdict.get(key, "")` for each fieldname.
The JSON objects' values are modelled as strings (the claims quantify
only over key structure). -/
def dictToList (fieldnames : List (List Char)) (row : List (List Char × List Char)) :
    Except JsonCsvErr (List (List Char)) :=
  let wrong := (row.map Prod.fst).filter (fun k => decide (k ∉ fieldnames))
  if wrong ≠ [] then .error (.valueError wrong)
  else .ok (fieldnames.map (dictGet row))

/-- Write all data rows of `json_to_csv` in order, stopping at the first
row that raises. -/
def writeDictRows (fieldnames : List (List Char)) :
    List (List (List Char × List Char)) → Except JsonCsvErr (List (List (List Char)))
  | [] => .ok []
  | row :: rest => do
    let r ← dictToList fieldnames row
    let rs ← writeDictRows fieldnames rest
    pure (r :: rs)

/-- `json_to_csv`: from the loaded JSON array of objects to the rows of
the written CSV file (header row first).  `data[0]` on an empty array
raises `IndexError`; the fieldnames are the key order of the first
object. -/
def json_to_csv (data : List (List (List Char × List Char))) :
    Except JsonCsvErr (List (List (List Char))) :=
  match data with
  | [] => .error .indexError
  | first :: _ => do
    let fieldnames := first.map Prod.fst
    let rows ← writeDictRows fieldnames data
    pure (fieldnames :: rows)

/-! ## `ensure_absolute_path` (`os.path` modelled for POSIX) -/

/-- `os.path.isabs`: the path starts with `'/'`. -/
def isabs (p : List Char) : Bool := p.head? = some '/'

/-- `posixpath.join(a, b)` for two components. -/
def pyJoin (a b : List Char) : List Char :=
  if isabs b then b
  else if a = [] ∨ a.getLast? = some '/' then a ++ b
  else a ++ '/' :: b

/-- The number of initial slashes `posixpath.normpath` preserves:
0 for a relative path, 2 for a path starting with exactly two slashes
(POSIX-special), 1 otherwise. -/
def initialSlashes (p : List Char) : Nat :=
  if isabs p then
    (if p.take 2 = ['/', '/'] ∧ p.take 3 ≠ ['/', '/', '/'] then 2 else 1)
  else 0

/-- The component loop of `posixpath.normpath`: drop `""` and `"."`,
let `".."` pop the previous component unless there is nothing to pop at
the root, or the accumulated tail is itself made of `".."`s. -/
def normComps (slashes : Nat) (comps : List (List Char)) : List (List Char) :=
  comps.foldl (fun acc comp =>
    if comp = [] ∨ comp = ['.'] then acc
    else if comp ≠ ['.', '.'] ∨ (slashes = 0 ∧ acc = [])
        ∨ acc.getLast? = some ['.', '.'] then acc ++ [comp]
    else if acc ≠ [] then acc.dropLast
    else acc) []

/-- `posixpath.normpath`. -/
def normpath (p : List Char) : List Char :=
  if p = [] then ['.']
  else
    let res := List.replicate (initialSlashes p) '/'
      ++ joinWith '/' (normComps (initialSlashes p) (splitOnChar '/' p))
    if res = [] then ['.'] else res

/-- `posixpath.abspath(path)` with the current working directory as an
explicit argument: join against `cwd` when relative, then normalise. -/
def abspath (cwd p : List Char) : List Char :=
  if isabs p then normpath p else normpath (pyJoin cwd p)

/-- `ensure_absolute_path`: return `os.path.abspath(path)` when the path
is not absolute, the path itself otherwise. -/
def ensure_absolute_path (cwd p : List Char) : List Char :=
  if ¬ isabs p then abspath cwd p else p

/-! ## Image conversion (`subprocess`-based, DISM + wimlib fallback)

External commands are modelled by an environment `Env` mapping a command
line (list of arguments, the executable first) to its outcome.  A
`subprocess.run(cmd, check=True)` call returns normally on `ok`, raises
`CalledProcessError` on `fail`, and raises `FileNotFoundError` when the
executable is absent. -/

/-- Outcome of executing one external command. -/
inductive RunOutcome where
  | ok : RunOutcome
  | fail : RunOutcome
  | notFound : RunOutcome
deriving DecidableEq

/-- The external world: what each command line does when executed. -/
def Env := List (List Char) → RunOutcome

/-- Exceptions arising from `subprocess.run(..., check=True)`. -/
inductive PyExc where
  | calledProcessError : List (List Char) → PyExc
  | fileNotFoundError : List (List Char) → PyExc
deriving DecidableEq

/-- `subprocess.run(cmd, check=True)`. -/
def subprocessRun (env : Env) (cmd : List (List Char)) : Except PyExc Unit :=
  match env cmd with
  | .ok => .ok ()
  | .fail => .error (.calledProcessError cmd)
  | .notFound => .error (.fileNotFoundError cmd)

/-- The console messages the image-conversion functions print, tagged by
their format string. -/
inductive Msg where
  | dismReturnedError : Msg
  | dismNotFound : Msg
  | startingDism : Msg
  | dismSuccess : Msg
  | dismError : Msg
  | dismFailedSwitching : Msg
  | dismUnavailableTrying : Msg
  | wimlibEsdToWimSuccess : List Char → Msg
  | wimlibWimToEsdSuccess : List Char → Msg
  | wimlibError : Msg
deriving DecidableEq

/-- The probe / attempt steps taken by one conversion call, with each
attempt's outcome. -/
inductive Step where
  | probe : Bool → Step
  | primary : RunOutcome → Step
  | fallback : RunOutcome → Step
deriving DecidableEq

/-- `["dism", "/?"]`, the availability probe command. -/
def dismProbeCmd : List (List Char) := ["dism".data, "/?".data]

/-- The DISM `/export-image` command line;
`compress` is `"max"` (ESD → WIM) or `"recovery"` (WIM → ESD). -/
def dismExportCmd (src : List Char) (idx : Nat) (dst compress : List Char) :
    List (List Char) :=
  ["dism".data, "/export-image".data,
   "/sourceimagefile:".data ++ src,
   "/sourceindex:".data ++ (Nat.repr idx).data,
   "/destinationimagefile:".data ++ dst,
   "/compress:".data ++ compress,
   "/checkintegrity".data]

/-- The `wimlib-imagex export` command line of `wimlib_esd_to_wim`. -/
def wimlibEsdToWimCmd (esd : List Char) (idx : Nat) (wim : List Char) :
    List (List Char) :=
  ["wimlib-imagex".data, "export".data, esd, (Nat.repr idx).data, wim,
   "--compress=max".data]

/-- The `wimlib-imagex export` command line of `wimlib_wim_to_esd`. -/
def wimlibWimToEsdCmd (wim : List Char) (idx : Nat) (esd : List Char) :
    List (List Char) :=
  ["wimlib-imagex".data, "export".data, wim, (Nat.repr idx).data, esd,
   "--solid".data]

/-- `is_dism_available`: run the probe under `check=True`; catch
`CalledProcessError` and `FileNotFoundError`, printing a diagnostic and
returning `False`; return `True` on success.  The result is the returned
boolean, the printed messages, and the exception behaviour (always `ok`,
as both possible exceptions are caught). -/
def is_dism_available (env : Env) : Except PyExc (Bool × List Msg) :=
  match subprocessRun env dismProbeCmd with
  | .ok () => .ok (true, [])
  | .error (.calledProcessError _) => .ok (false, [.dismReturnedError])
  | .error (.fileNotFoundError _) => .ok (false, [.dismNotFound])

/-- `wimlib_esd_to_wim`: run `wimlib-imagex export ... --compress=max`
under `check=True`, catching only `CalledProcessError` (which is printed);
a `FileNotFoundError` propagates.  Returns the attempt's outcome, the
printed messages, and the exception behaviour. -/
def wimlib_esd_to_wim (env : Env) (esd : List Char) (wim : List Char)
    (idx : Nat) : RunOutcome × List Msg × Except PyExc Unit :=
  match env (wimlibEsdToWimCmd esd idx wim) with
  | .ok => (.ok, [.wimlibEsdToWimSuccess wim], .ok ())
  | .fail => (.fail, [.wimlibError], .ok ())
  | .notFound => (.notFound, [], .error (.fileNotFoundError (wimlibEsdToWimCmd esd idx wim)))

/-- `wimlib_wim_to_esd`: as `wimlib_esd_to_wim`, with the `--solid`
export command. -/
def wimlib_wim_to_esd (env : Env) (wim : List Char) (esd : List Char)
    (idx : Nat) : RunOutcome × List Msg × Except PyExc Unit :=
  match env (wimlibWimToEsdCmd wim idx esd) with
  | .ok => (.ok, [.wimlibWimToEsdSuccess esd], .ok ())
  | .fail => (.fail, [.wimlibError], .ok ())
  | .notFound => (.notFound, [], .error (.fileNotFoundError (wimlibWimToEsdCmd wim idx esd)))

/-- `esd_to_wim`: probe DISM; if available run the DISM export
(`/compress:max`) catching `CalledProcessError` and falling back to
wimlib; if unavailable go to wimlib directly.  The result records the
steps taken, the printed messages, and the exception behaviour. -/
def esd_to_wim (env : Env) (esd : List Char) (wim : List Char) (idx : Nat) :
    List Step × List Msg × Except PyExc Unit :=
  match is_dism_available env with
  | .error e => ([], [], .error e)
  | .ok (true, m1) =>
    match env (dismExportCmd esd idx wim "max".data) with
    | .ok => ([.probe true, .primary .ok], m1 ++ [.startingDism, .dismSuccess], .ok ())
    | .fail =>
      let (k, m2, res) := wimlib_esd_to_wim env esd wim idx
      ([.probe true, .primary .fail, .fallback k],
       m1 ++ [.startingDism, .dismError, .dismFailedSwitching] ++ m2, res)
    | .notFound =>
      ([.probe true, .primary .notFound], m1 ++ [.startingDism],
       .error (.fileNotFoundError (dismExportCmd esd idx wim "max".data)))
  | .ok (false, m1) =>
    let (k, m2, res) := wimlib_esd_to_wim env esd wim idx
    ([.probe false, .fallback k], m1 ++ [.dismUnavailableTrying] ++ m2, res)

/-- `wim_to_esd`: mirror of `esd_to_wim` with `/compress:recovery` on the
primary attempt and the `--solid` wimlib fallback. -/
def wim_to_esd (env : Env) (wim : List Char) (esd : List Char) (idx : Nat) :
    List Step × List Msg × Except PyExc Unit :=
  match is_dism_available env with
  | .error e => ([], [], .error e)
  | .ok (true, m1) =>
    match env (dismExportCmd wim idx esd "recovery".data) with
    | .ok => ([.probe true, .primary .ok], m1 ++ [.startingDism, .dismSuccess], .ok ())
    | .fail =>
      let (k, m2, res) := wimlib_wim_to_esd env wim esd idx
      ([.probe true, .primary .fail, .fallback k],
       m1 ++ [.startingDism, .dismError, .dismFailedSwitching] ++ m2, res)
    | .notFound =>
      ([.probe true, .primary .notFound], m1 ++ [.startingDism],
       .error (.fileNotFoundError (dismExportCmd wim idx esd "recovery".data)))
  | .ok (false, m1) =>
    let (k, m2, res) := wimlib_wim_to_esd env wim esd idx
    ([.probe false, .fallback k], m1 ++ [.dismUnavailableTrying] ++ m2, res)

end ConvertFile

namespace ConvertFile

-- Concrete evaluations of the model on small inputs.
example : splitOnChar ',' [] = [[]] := by decide
example : splitOnChar ',' ['a', ',', 'b'] = [['a'], ['b']] := by decide
example : splitOnChar ',' ['a', ','] = [['a'], []] := by decide
example : readlines ['a', '\n', 'b'] = [['a', '\n'], ['b']] := by decide
example : readlines ['\n'] = [['\n']] := by decide
example : univNewlines ['a', '\r', '\n', '\r', 'b'] = ['a', '\n', '\n', 'b'] := by decide
example : pyStrip [' ', 'a', ' ', 'b', '\n'] = ['a', ' ', 'b'] := by decide
example : csvWriteAll [[['a'], ['b']], [['c']]] =
    ['a', ',', 'b', '\r', '\n', 'c', '\r', '\n'] := by decide
example : csvWriteAll [[[]]] = ['"', '"', '\r', '\n'] := by decide
example : csvWriteAll [[['a', '"', 'b']]] =
    ['"', 'a', '"', '"', 'b', '"', '\r', '\n'] := by decide
example : csvParse ['a', ',', 'b', '\n', 'c', '\n'] = [[['a'], ['b']], [['c']]] := by decide
example : csvParse ['a', ','] = [[['a'], []]] := by decide
example : csvParse ['\n'] = [[]] := by decide
example : csvParse ['"', '"', '\n'] = [[[]]] := by decide
example : csvParse ['"', 'a', '"', '"', 'b', '"', '\n'] = [[['a', '"', 'b']]] := by decide
example : csvParse ['"', 'a', '\n', 'b', '"', '\n'] = [[['a', '\n', 'b']]] := by decide
example : csvParse ['a'] = [[['a']]] := by decide
example : csvParse [] = [] := by decide
example : "ab".data = ['a', 'b'] := by decide
example : csv_to_json "a,b\n1,2\n".data =
    [[(some ['a'], DVal.str ['1']), (some ['b'], DVal.str ['2'])]] := by decide
example : csv_to_json "a,b\n1\n".data =
    [[(some ['a'], DVal.str ['1']), (some ['b'], DVal.null)]] := by decide
example : csv_to_json "a\n1,2\n".data =
    [[(some ['a'], DVal.str ['1']), (none, DVal.extra [['2']])]] := by decide
example : json_to_csv [] = .error .indexError := rfl
example : json_to_csv [[(['a'], ['1']), (['b'], ['2'])], [(['a'], ['3'])]] =
    .ok [[['a'], ['b']], [['1'], ['2']], [['3'], []]] := rfl
example : json_to_csv [[(['a'], ['1'])], [(['a'], ['3']), (['b'], ['4'])]] =
    .error (.valueError [['b']]) := rfl
example : txtCsvRoundTrip "a,b\nc\n".data = "a,b\nc\n".data := by decide
example : txtCsvRoundTrip "a".data = "a\n".data := by decide
example : txtCsvRoundTrip " a\n".data = "a\n".data := by decide
example : normpath "/home/x/../y".data = "/home/y".data := by decide
example : normpath "//x".data = "//x".data := by decide
example : normpath "/..".data = "/".data := by decide
example : normpath "a/./b//c".data = "a/b/c".data := by decide
example : normpath "../../a".data = "../../a".data := by decide
example : abspath "/home".data "x".data = "/home/x".data := by decide
example : ensure_absolute_path "/home".data "/etc".data = "/etc".data := by decide

/-! ## Lemmas on `json_to_csv` -/

theorem dictToList_ok (fn : List (List Char)) (row : List (List Char × List Char))
    (h : ∀ k ∈ row.map Prod.fst, k ∈ fn) :
    dictToList fn row = .ok (fn.map (dictGet row)) := by
  have hf : (row.map Prod.fst).filter (fun k => decide (k ∉ fn)) = [] := by
    apply List.filter_eq_nil_iff.mpr
    intro k hk
    simpa using h k hk
  unfold dictToList
  rw [if_neg (not_not_intro hf)]

theorem dictToList_error (fn : List (List Char)) (row : List (List Char × List Char))
    (k : List Char) (hk : k ∈ row.map Prod.fst) (hnot : k ∉ fn) :
    ∃ e, dictToList fn row = .error e := by
  have hf : (row.map Prod.fst).filter (fun k => decide (k ∉ fn)) ≠ [] := by
    intro hnil
    have := List.filter_eq_nil_iff.mp hnil k hk
    simp at this
    exact hnot this
  refine ⟨.valueError ((row.map Prod.fst).filter (fun k => decide (k ∉ fn))), ?_⟩
  unfold dictToList
  rw [if_pos hf]

theorem writeDictRows_ok (fn : List (List Char)) :
    ∀ rows : List (List (List Char × List Char)),
      (∀ row ∈ rows, ∀ k ∈ row.map Prod.fst, k ∈ fn) →
      writeDictRows fn rows = .ok (rows.map (fun row => fn.map (dictGet row)))
  | [], _ => rfl
  | row :: rest, h => by
    have h1 := dictToList_ok fn row (h row (by simp))
    have h2 := writeDictRows_ok fn rest (fun r hr => h r (by simp [hr]))
    unfold writeDictRows
    rw [h1, h2]
    rfl

theorem writeDictRows_error (fn : List (List Char)) :
    ∀ (rows : List (List (List Char × List Char)))
      (row : List (List Char × List Char)), row ∈ rows →
      (∃ e, dictToList fn row = .error e) →
      ∃ e, writeDictRows fn rows = .error e
  | r :: rest, row, hmem, herr => by
    cases hd : dictToList fn r with
    | error e => exact ⟨e, by unfold writeDictRows; rw [hd]; rfl⟩
    | ok v =>
      rcases List.mem_cons.mp hmem with h | h
      · subst h
        rcases herr with ⟨e, he⟩
        rw [hd] at he
        cases he
      · rcases writeDictRows_error fn rest row h herr with ⟨e, he⟩
        exact ⟨e, by unfold writeDictRows; rw [hd, he]; rfl⟩

end ConvertFile

namespace ConvertFile

/-! ## Claims C5, C10, C2: `json_to_csv` failure behaviour -/

/-- **C5** (confirmed).  For every JSON input that is an empty array,
`json_to_csv` fails: `data[0].keys()` raises `IndexError` because there
is no first element to derive headers from. -/
theorem c5_empty_array_fails : json_to_csv [] = .error .indexError := rfl

/-- **C10** (confirmed).  If any element of the loaded JSON array has a
key that is not among the first element's keys, `json_to_csv` raises
(`csv.DictWriter` with the default `extrasaction="raise"` refuses extra
fields). -/
theorem c10_extra_key_raises (first : List (List Char × List Char))
    (rest : List (List (List Char × List Char)))
    (row : List (List Char × List Char)) (k : List Char)
    (hrow : row ∈ first :: rest) (hk : k ∈ row.map Prod.fst)
    (hnot : k ∉ first.map Prod.fst) :
    ∃ e, json_to_csv (first :: rest) = .error e := by
  have herr := dictToList_error (first.map Prod.fst) row k hk hnot
  rcases writeDictRows_error (first.map Prod.fst) (first :: rest) row hrow herr with ⟨e, he⟩
  exact ⟨e, by simp [json_to_csv, he]⟩

/-- Witness for C10 at a concrete input: the second object has the extra
key `"b"`. -/
theorem c10_extra_key_raises_witness :
    ∃ e, json_to_csv [[(['a'], ['1'])], [(['a'], ['3']), (['b'], ['4'])]] = .error e :=
  c10_extra_key_raises [(['a'], ['1'])] [[(['a'], ['3']), (['b'], ['4'])]]
    [(['a'], ['3']), (['b'], ['4'])] ['b'] (by simp) (by simp) (by simp)

/-- **C2** (counterexample).  The claim says `json_to_csv` fails with a
missing-key error whenever a later element lacks one of the first
element's keys.  It does not: `csv.DictWriter` fills missing keys with
the default `restval` `""`.  Here the second object lacks the key `"b"`
yet the conversion succeeds, writing the empty string for it. -/
theorem c2_counterexample :
    (['b'] ∈ ([(['a'], ['1']), (['b'], ['2'])] : List (List Char × List Char)).map Prod.fst
      ∧ ['b'] ∉ ([(['a'], ['3'])] : List (List Char × List Char)).map Prod.fst)
    ∧ json_to_csv [[(['a'], ['1']), (['b'], ['2'])], [(['a'], ['3'])]] =
        .ok [[['a'], ['b']], [['1'], ['2']], [['3'], []]] := by
  refine ⟨⟨by simp, by simp⟩, rfl⟩

/-- **C2** (amended).  For every JSON input array whose elements' keys
all lie among the first element's keys, `json_to_csv` succeeds, writing
the header row followed by one row per element in which each of the
first element's keys is looked up in the element, a missing key
producing the empty string (`restval`).  It fails only when some element
has a key outside the first element's keys (see
`c10_extra_key_raises`). -/
theorem c2_missing_keys_filled (first : List (List Char × List Char))
    (rest : List (List (List Char × List Char)))
    (hsub : ∀ row ∈ first :: rest, ∀ k ∈ row.map Prod.fst, k ∈ first.map Prod.fst) :
    json_to_csv (first :: rest) =
      .ok ((first.map Prod.fst)
        :: (first :: rest).map (fun row => (first.map Prod.fst).map (dictGet row))) := by
  have h := writeDictRows_ok (first.map Prod.fst) (first :: rest) hsub
  simp [json_to_csv, h]

/-- Witness for the amended C2: the second object lacks `"b"`; the
conversion succeeds and writes `""` for it. -/
theorem c2_missing_keys_filled_witness :
    json_to_csv [[(['a'], ['1']), (['b'], ['2'])], [(['a'], ['3'])]] =
      .ok [[['a'], ['b']], [['1'], ['2']], [['3'], []]] := by
  have h := c2_missing_keys_filled [(['a'], ['1']), (['b'], ['2'])] [[(['a'], ['3'])]]
    (by decide)
  simpa [dictGet] using h

/-! ## Lemmas on paths, and claim C9 -/

theorem isabs_append (a b : List Char) (h : isabs a = true) :
    isabs (a ++ b) = true := by
  cases a with
  | nil => simp [isabs] at h
  | cons c cs => simpa [isabs] using h

theorem isabs_pyJoin (cwd p : List Char) (h : isabs cwd = true) :
    isabs (pyJoin cwd p) = true := by
  unfold pyJoin
  by_cases hb : isabs p = true
  · simp [hb]
  · rw [if_neg (by simpa using hb)]
    split
    · exact isabs_append cwd p h
    · exact isabs_append cwd ('/' :: p) h

theorem isabs_normpath (p : List Char) (h : isabs p = true) :
    isabs (normpath p) = true := by
  have hp : p ≠ [] := by
    intro e
    rw [e] at h
    simp [isabs] at h
  have hk : 1 ≤ initialSlashes p := by
    unfold initialSlashes
    rw [if_pos h]
    split <;> omega
  unfold normpath
  rw [if_neg hp]
  obtain ⟨k, hk'⟩ : ∃ k, initialSlashes p = k + 1 :=
    ⟨initialSlashes p - 1, by omega⟩
  rw [hk']
  simp [List.replicate_succ, isabs]

/-- **C9** (confirmed).  `ensure_absolute_path` returns an absolute path
unchanged, resolves a relative path against the current working
directory via `os.path.abspath`, and (as the current working directory
is itself absolute) is idempotent. -/
theorem c9_ensure_absolute_path (cwd p : List Char) (hcwd : isabs cwd = true) :
    (isabs p = true → ensure_absolute_path cwd p = p)
    ∧ (isabs p = false → ensure_absolute_path cwd p = abspath cwd p)
    ∧ ensure_absolute_path cwd (ensure_absolute_path cwd p) =
        ensure_absolute_path cwd p := by
  refine ⟨fun h => by simp [ensure_absolute_path, h], fun h => by simp [ensure_absolute_path, h], ?_⟩
  by_cases h : isabs p = true
  · simp [ensure_absolute_path, h]
  · have h' : isabs p = false := by simpa using h
    have habs : isabs (abspath cwd p) = true := by
      unfold abspath
      rw [if_neg (by simp [h'])]
      exact isabs_normpath _ (isabs_pyJoin cwd p hcwd)
    simp [ensure_absolute_path, h', habs]

/-- Witness for C9 at `cwd = "/home"`, `p = "x"`: the second application
changes nothing. -/
theorem c9_ensure_absolute_path_witness :
    ensure_absolute_path "/home".data (ensure_absolute_path "/home".data "x".data) =
      ensure_absolute_path "/home".data "x".data :=
  (c9_ensure_absolute_path "/home".data "x".data (by decide)).2.2

/-! ## Claims C7, C1, C8: the image-conversion subsystem -/

/-- An external world in which no executable exists at all: every
command raises `FileNotFoundError`. -/
def envAllAbsent : Env := fun _ => .notFound

/-- An external world in which every command runs but exits non-zero. -/
def envAllFail : Env := fun _ => .fail

/-- An external world in which every command succeeds. -/
def envAllOk : Env := fun _ => .ok

/-- **C7** (confirmed).  `is_dism_available` never raises (both
`CalledProcessError` and `FileNotFoundError` are caught): it returns
`True` exactly when the probe command `dism /?` succeeds, and `False`
after printing a diagnostic when the probe exits non-zero or the tool is
absent. -/
theorem c7_probe_total (env : Env) :
    (is_dism_available env).isOk = true
    ∧ (env dismProbeCmd = .ok → is_dism_available env = .ok (true, []))
    ∧ (env dismProbeCmd = .fail →
        is_dism_available env = .ok (false, [.dismReturnedError]))
    ∧ (env dismProbeCmd = .notFound →
        is_dism_available env = .ok (false, [.dismNotFound])) := by
  cases h : env dismProbeCmd <;>
    simp [is_dism_available, subprocessRun, h, Except.isOk, Except.toBool]

/-- Witness for C7: with every tool absent the probe returns `False`
(after the not-found diagnostic) rather than raising. -/
theorem c7_probe_total_witness :
    is_dism_available envAllAbsent = .ok (false, [.dismNotFound]) :=
  (c7_probe_total envAllAbsent).2.2.2 rfl

/-- **C1** (counterexample).  The claim says that when the probe returns
false and `wimlib-imagex` is also absent, the operation logs the
failures and returns without raising.  In that very scenario the code
raises: `wimlib_esd_to_wim` catches only `CalledProcessError`, so the
`FileNotFoundError` of the absent fallback tool propagates out of
`esd_to_wim` (and likewise out of `wim_to_esd`). -/
theorem c1_counterexample :
    is_dism_available envAllAbsent = .ok (false, [.dismNotFound])
    ∧ esd_to_wim envAllAbsent "a.esd".data "a.wim".data 1 =
        ([.probe false, .fallback .notFound],
         [.dismNotFound, .dismUnavailableTrying],
         .error (.fileNotFoundError (wimlibEsdToWimCmd "a.esd".data 1 "a.wim".data)))
    ∧ (esd_to_wim envAllAbsent "a.esd".data "a.wim".data 1).2.2 ≠ .ok ()
    ∧ (wim_to_esd envAllAbsent "a.wim".data "a.esd".data 1).2.2 ≠ .ok () := by
  refine ⟨rfl, rfl, ?_, ?_⟩ <;> · intro h; cases h

/-- **C1** (amended).  No exception propagates out of `esd_to_wim` or
`wim_to_esd` provided neither the primary export command nor the
fallback command hits a missing executable (every failure being a
non-zero exit, i.e. `CalledProcessError`, which is caught); in
particular a failing or absent probe is always handled.  When the
fallback tool is absent its `FileNotFoundError` propagates (see
`c1_counterexample`). -/
theorem c1_no_raise (env : Env) (a b : List Char) (idx : Nat)
    (h1 : env (dismExportCmd a idx b "max".data) ≠ .notFound)
    (h2 : env (wimlibEsdToWimCmd a idx b) ≠ .notFound)
    (h3 : env (dismExportCmd a idx b "recovery".data) ≠ .notFound)
    (h4 : env (wimlibWimToEsdCmd a idx b) ≠ .notFound) :
    (esd_to_wim env a b idx).2.2 = .ok () ∧ (wim_to_esd env a b idx).2.2 = .ok () := by
  constructor
  · cases hp : env dismProbeCmd <;>
      cases he : env (dismExportCmd a idx b "max".data) <;>
      cases hw : env (wimlibEsdToWimCmd a idx b) <;>
      simp_all [esd_to_wim, is_dism_available, subprocessRun, wimlib_esd_to_wim]
  · cases hp : env dismProbeCmd <;>
      cases he : env (dismExportCmd a idx b "recovery".data) <;>
      cases hw : env (wimlibWimToEsdCmd a idx b) <;>
      simp_all [wim_to_esd, is_dism_available, subprocessRun, wimlib_wim_to_esd]

/-- Witness for the amended C1: every tool exists but every invocation
exits non-zero; both operations log and return normally. -/
theorem c1_no_raise_witness :
    (esd_to_wim envAllFail "a.esd".data "a.wim".data 1).2.2 = .ok ()
    ∧ (wim_to_esd envAllFail "a.esd".data "a.wim".data 1).2.2 = .ok () :=
  c1_no_raise envAllFail "a.esd".data "a.wim".data 1
    (by intro h; cases h) (by intro h; cases h) (by intro h; cases h) (by intro h; cases h)

/-- Presence of an executable is a property of the executable, not of
its arguments: two command lines with the same program name either both
raise `FileNotFoundError` or neither does.  (This is how `subprocess`
behaves on a real system; the probe and the export command both invoke
`dism`.) -/
def ToolConsistent (env : Env) : Prop :=
  ∀ c1 c2 : List (List Char), c1.head? = c2.head? →
    ((env c1 = .notFound) ↔ (env c2 = .notFound))

/-- **C8** (confirmed).  Over any tool-consistent external world, each
directional conversion realises exactly the documented state machine:
either probe-available then a successful primary attempt; or
probe-available, a primary non-zero exit, then a fallback attempt; or
probe-unavailable then a fallback attempt directly.  The fallback is
attempted exactly when the probe fails or the primary attempt exits
non-zero, and never after a primary success. -/
theorem c8_state_machine (env : Env) (a b : List Char) (idx : Nat)
    (hc : ToolConsistent env) :
    ((esd_to_wim env a b idx).1 = [.probe true, .primary .ok]
      ∨ (∃ k, (esd_to_wim env a b idx).1 = [.probe true, .primary .fail, .fallback k])
      ∨ (∃ k, (esd_to_wim env a b idx).1 = [.probe false, .fallback k]))
    ∧ ((∃ k, Step.fallback k ∈ (esd_to_wim env a b idx).1) ↔
        (env dismProbeCmd ≠ .ok ∨ env (dismExportCmd a idx b "max".data) = .fail))
    ∧ ((wim_to_esd env a b idx).1 = [.probe true, .primary .ok]
      ∨ (∃ k, (wim_to_esd env a b idx).1 = [.probe true, .primary .fail, .fallback k])
      ∨ (∃ k, (wim_to_esd env a b idx).1 = [.probe false, .fallback k]))
    ∧ ((∃ k, Step.fallback k ∈ (wim_to_esd env a b idx).1) ↔
        (env dismProbeCmd ≠ .ok ∨ env (dismExportCmd a idx b "recovery".data) = .fail)) := by
  have hdism1 : (env dismProbeCmd = .notFound) ↔
      (env (dismExportCmd a idx b "max".data) = .notFound) :=
    hc dismProbeCmd (dismExportCmd a idx b "max".data) rfl
  have hdism2 : (env dismProbeCmd = .notFound) ↔
      (env (dismExportCmd a idx b "recovery".data) = .notFound) :=
    hc dismProbeCmd (dismExportCmd a idx b "recovery".data) rfl
  cases hp : env dismProbeCmd with
  | ok =>
    have he1 : env (dismExportCmd a idx b "max".data) ≠ .notFound := by
      intro h
      rw [hdism1.mpr h] at hp
      cases hp
    have he2 : env (dismExportCmd a idx b "recovery".data) ≠ .notFound := by
      intro h
      rw [hdism2.mpr h] at hp
      cases hp
    refine ⟨?_, ?_, ?_, ?_⟩
    · cases he : env (dismExportCmd a idx b "max".data) <;>
        cases hw : env (wimlibEsdToWimCmd a idx b) <;>
        simp_all [esd_to_wim, is_dism_available, subprocessRun, wimlib_esd_to_wim]
    · cases he : env (dismExportCmd a idx b "max".data) <;>
        cases hw : env (wimlibEsdToWimCmd a idx b) <;>
        simp_all [esd_to_wim, is_dism_available, subprocessRun, wimlib_esd_to_wim]
    · cases he : env (dismExportCmd a idx b "recovery".data) <;>
        cases hw : env (wimlibWimToEsdCmd a idx b) <;>
        simp_all [wim_to_esd, is_dism_available, subprocessRun, wimlib_wim_to_esd]
    · cases he : env (dismExportCmd a idx b "recovery".data) <;>
        cases hw : env (wimlibWimToEsdCmd a idx b) <;>
        simp_all [wim_to_esd, is_dism_available, subprocessRun, wimlib_wim_to_esd]
  | fail =>
    refine ⟨?_, ?_, ?_, ?_⟩ <;>
      [cases hw : env (wimlibEsdToWimCmd a idx b);
       cases hw : env (wimlibEsdToWimCmd a idx b);
       cases hw : env (wimlibWimToEsdCmd a idx b);
       cases hw : env (wimlibWimToEsdCmd a idx b)] <;>
      simp_all [esd_to_wim, wim_to_esd, is_dism_available, subprocessRun,
        wimlib_esd_to_wim, wimlib_wim_to_esd]
  | notFound =>
    refine ⟨?_, ?_, ?_, ?_⟩ <;>
      [cases hw : env (wimlibEsdToWimCmd a idx b);
       cases hw : env (wimlibEsdToWimCmd a idx b);
       cases hw : env (wimlibWimToEsdCmd a idx b);
       cases hw : env (wimlibWimToEsdCmd a idx b)] <;>
      simp_all [esd_to_wim, wim_to_esd, is_dism_available, subprocessRun,
        wimlib_esd_to_wim, wimlib_wim_to_esd]

/-- Witness for C8: in a world where every command exits non-zero
(consistently: no tool is absent) the fallback is attempted because the
probe returns false. -/
theorem c8_state_machine_witness :
    (∃ k, Step.fallback k ∈ (esd_to_wim envAllFail "a.esd".data "a.wim".data 1).1) ↔
      (envAllFail dismProbeCmd ≠ .ok ∨
        envAllFail (dismExportCmd "a.esd".data 1 "a.wim".data "max".data) = .fail) :=
  (c8_state_machine envAllFail "a.esd".data "a.wim".data 1
    (fun _ _ _ => Iff.rfl)).2.1

/-! ## Lemmas on splitting, joining, lines and newline translation -/

theorem splitOnChar_ne_nil (sep : Char) (l : List Char) : splitOnChar sep l ≠ [] := by
  cases l with
  | nil => simp [splitOnChar]
  | cons c cs =>
    unfold splitOnChar
    by_cases h : c = sep
    · simp [h]
    · rw [if_neg h]
      cases splitOnChar sep cs <;> simp

theorem joinWith_splitOnChar (sep : Char) (l : List Char) :
    joinWith sep (splitOnChar sep l) = l := by
  induction l with
  | nil => rfl
  | cons c cs ih =>
    unfold splitOnChar
    by_cases h : c = sep
    · rw [if_pos h]
      obtain ⟨f, fs, hsp⟩ : ∃ f fs, splitOnChar sep cs = f :: fs := by
        cases hs : splitOnChar sep cs with
        | nil => exact absurd hs (splitOnChar_ne_nil sep cs)
        | cons f fs => exact ⟨f, fs, rfl⟩
      rw [hsp]
      rw [hsp] at ih
      simp only [joinWith]
      rw [show joinWith sep (f :: fs) = cs from ih] at *
      · cases fs <;> simp_all [joinWith, h]
    · rw [if_neg h]
      cases hs : splitOnChar sep cs with
      | nil => exact absurd hs (splitOnChar_ne_nil sep cs)
      | cons f fs =>
        rw [hs] at ih
        cases fs <;> simp_all [joinWith]

theorem mem_of_mem_splitOnChar (sep : Char) (l : List Char) (f : List Char)
    (c : Char) (hf : f ∈ splitOnChar sep l) (hc : c ∈ f) : c ∈ l := by
  induction l generalizing f with
  | nil =>
    simp [splitOnChar] at hf
    subst hf
    cases hc
  | cons d ds ih =>
    unfold splitOnChar at hf
    by_cases h : d = sep
    · rw [if_pos h] at hf
      rcases List.mem_cons.mp hf with h' | h'
      · subst h'; cases hc
      · exact List.mem_cons_of_mem _ (ih f h' hc)
    · rw [if_neg h] at hf
      cases hs : splitOnChar sep ds with
      | nil => exact absurd hs (splitOnChar_ne_nil sep ds)
      | cons g gs =>
        rw [hs] at hf
        rcases List.mem_cons.mp hf with h' | h'
        · subst h'
          rcases List.mem_cons.mp hc with h'' | h''
          · exact h'' ▸ List.mem_cons_self d ds
          · exact List.mem_cons_of_mem _ (ih g (hs ▸ List.mem_cons_self g gs) h'')
        · exact List.mem_cons_of_mem _ (ih f (hs ▸ List.mem_cons_of_mem g h') hc)

theorem sep_not_mem_splitOnChar (sep : Char) (l : List Char) (f : List Char)
    (hf : f ∈ splitOnChar sep l) : sep ∉ f := by
  induction l generalizing f with
  | nil =>
    simp [splitOnChar] at hf
    subst hf
    simp
  | cons d ds ih =>
    unfold splitOnChar at hf
    by_cases h : d = sep
    · rw [if_pos h] at hf
      rcases List.mem_cons.mp hf with h' | h'
      · subst h'; simp
      · exact ih f h'
    · rw [if_neg h] at hf
      cases hs : splitOnChar sep ds with
      | nil => exact absurd hs (splitOnChar_ne_nil sep ds)
      | cons g gs =>
        rw [hs] at hf
        rcases List.mem_cons.mp hf with h' | h'
        · subst h'
          intro hmem
          rcases List.mem_cons.mp hmem with h'' | h''
          · exact h (h''.symm)
          · exact ih g (hs ▸ List.mem_cons_self g gs) h''
        · exact ih f (hs ▸ List.mem_cons_of_mem g h')

theorem univNewlines_crlf (cs : List Char) :
    univNewlines ('\r' :: '\n' :: cs) = '\n' :: univNewlines cs := rfl

theorem univNewlines_cr (cs : List Char)
    (h : ∀ cs', cs = '\n' :: cs' → False) :
    univNewlines ('\r' :: cs) = '\n' :: univNewlines cs := by
  rw [univNewlines.eq_def]
  split <;> try simp_all
  rename_i hne heq
  exact absurd heq.1.symm hne

theorem univNewlines_cons (c : Char) (cs : List Char) (h : c ≠ '\r') :
    univNewlines (c :: cs) = c :: univNewlines cs := by
  rw [univNewlines.eq_def]
  split <;> simp_all

theorem univNewlines_no_cr (l : List Char) : '\r' ∉ univNewlines l := by
  induction l using univNewlines.induct with
  | case1 => simp [univNewlines]
  | case2 cs ih =>
    rw [univNewlines_crlf]
    simpa using ih
  | case3 cs h ih =>
    rw [univNewlines_cr cs h]
    simpa using ih
  | case4 c cs h1 h2 ih =>
    rw [univNewlines_cons c cs h2]
    intro hmem
    rcases List.mem_cons.mp hmem with h' | h'
    · exact h2 h'.symm
    · exact ih h'

theorem univNewlines_of_no_cr (l : List Char) (h : '\r' ∉ l) :
    univNewlines l = l := by
  induction l with
  | nil => rfl
  | cons c cs ih =>
    have hc : c ≠ '\r' := fun e => h (e ▸ List.mem_cons_self c cs)
    have hcs : '\r' ∉ cs := fun m => h (List.mem_cons_of_mem c m)
    rw [univNewlines_cons c cs hc, ih hcs]

theorem univNewlines_append_crlf (x rest : List Char) (h : '\r' ∉ x) :
    univNewlines (x ++ '\r' :: '\n' :: rest) = x ++ '\n' :: univNewlines rest := by
  induction x with
  | nil => rfl
  | cons c cs ih =>
    have hc : c ≠ '\r' := fun e => h (e ▸ List.mem_cons_self c cs)
    have hcs : '\r' ∉ cs := fun m => h (List.mem_cons_of_mem c m)
    rw [List.cons_append, univNewlines_cons c _ hc, ih hcs, List.cons_append]

theorem readlines_flatten (l : List Char) : (readlines l).flatten = l := by
  induction l with
  | nil => rfl
  | cons c cs ih =>
    unfold readlines
    by_cases h : c = '\n'
    · rw [if_pos h, List.flatten_cons, ih, h]
      rfl
    · rw [if_neg h]
      cases hs : readlines cs with
      | nil =>
        rw [hs] at ih
        simp at ih
        simp [← ih]
      | cons r rs =>
        rw [hs] at ih
        simpa using ih

theorem mem_of_mem_readlines (l line : List Char) (c : Char)
    (hline : line ∈ readlines l) (hc : c ∈ line) : c ∈ l := by
  induction l generalizing line with
  | nil => simp [readlines] at hline
  | cons d ds ih =>
    unfold readlines at hline
    by_cases h : d = '\n'
    · rw [if_pos h] at hline
      rcases List.mem_cons.mp hline with h' | h'
      · subst h'
        simp at hc
        exact List.mem_cons.mpr (Or.inl (hc.trans h.symm))
      · exact List.mem_cons_of_mem _ (ih line h' hc)
    · rw [if_neg h] at hline
      cases hs : readlines ds with
      | nil =>
        rw [hs] at hline
        simp at hline
        subst hline
        simp at hc
        exact List.mem_cons.mpr (Or.inl hc)
      | cons r rs =>
        rw [hs] at hline
        rcases List.mem_cons.mp hline with h' | h'
        · subst h'
          rcases List.mem_cons.mp hc with h'' | h''
          · exact h'' ▸ List.mem_cons_self d ds
          · exact List.mem_cons_of_mem _ (ih r (hs ▸ List.mem_cons_self r rs) h'')
        · exact List.mem_cons_of_mem _ (ih line (hs ▸ List.mem_cons_of_mem r h') hc)

theorem readlines_dropLast_no_nl (l line : List Char)
    (hline : line ∈ readlines l) : '\n' ∉ line.dropLast := by
  induction l generalizing line with
  | nil => simp [readlines] at hline
  | cons d ds ih =>
    unfold readlines at hline
    by_cases h : d = '\n'
    · rw [if_pos h] at hline
      rcases List.mem_cons.mp hline with h' | h'
      · subst h'; simp
      · exact ih line h'
    · rw [if_neg h] at hline
      cases hs : readlines ds with
      | nil =>
        rw [hs] at hline
        simp at hline
        subst hline
        simp
      | cons r rs =>
        rw [hs] at hline
        rcases List.mem_cons.mp hline with h' | h'
        · subst h'
          cases r with
          | nil => simp
          | cons e es =>
            intro hmem
            rw [List.dropLast_cons₂] at hmem
            rcases List.mem_cons.mp hmem with h'' | h''
            · exact h h''.symm
            · exact ih (e :: es) (hs ▸ List.mem_cons_self _ rs) h''
        · exact ih line (hs ▸ List.mem_cons_of_mem r h')

theorem mem_of_mem_dropWhile (p : Char → Bool) (l : List Char) (c : Char)
    (h : c ∈ l.dropWhile p) : c ∈ l := by
  induction l with
  | nil => simp at h
  | cons d ds ih =>
    rw [List.dropWhile_cons] at h
    by_cases hp : p d = true
    · rw [if_pos hp] at h
      exact List.mem_cons_of_mem _ (ih h)
    · rw [if_neg hp] at h
      exact h

theorem mem_of_mem_pyRstrip (l : List Char) (c : Char) (h : c ∈ pyRstrip l) :
    c ∈ l := by
  unfold pyRstrip at h
  rw [List.mem_reverse] at h
  have := mem_of_mem_dropWhile pyIsSpace l.reverse c h
  rwa [List.mem_reverse] at this

theorem mem_of_mem_pyStrip (l : List Char) (c : Char) (h : c ∈ pyStrip l) :
    c ∈ l :=
  mem_of_mem_pyRstrip l c (mem_of_mem_dropWhile pyIsSpace (pyRstrip l) c h)

theorem pyRstrip_append_ws (l : List Char) (a : Char) (ha : pyIsSpace a = true) :
    pyRstrip (l ++ [a]) = pyRstrip l := by
  unfold pyRstrip
  rw [List.reverse_append]
  simp [List.dropWhile_cons, ha]

theorem nl_not_mem_pyStrip (line : List Char) (hd : '\n' ∉ line.dropLast) :
    '\n' ∉ pyStrip line := by
  intro hmem
  cases hline : line.getLast? with
  | none =>
    rw [List.getLast?_eq_none_iff] at hline
    subst hline
    simp [pyStrip, pyRstrip, pyLstrip] at hmem
  | some a =>
    have hsplit : line.dropLast ++ [a] = line :=
      List.dropLast_append_getLast? a hline
    by_cases hnl : a = '\n'
    · have heq : pyStrip line = pyStrip line.dropLast := by
        conv_lhs => rw [← hsplit]
        unfold pyStrip
        rw [pyRstrip_append_ws _ a (by simp [pyIsSpace, hnl])]
      rw [heq] at hmem
      exact hd (mem_of_mem_pyStrip _ _ hmem)
    · have hin : '\n' ∈ line := mem_of_mem_pyStrip _ _ hmem
      rw [← hsplit] at hin
      rcases List.mem_append.mp hin with h | h
      · exact hd h
      · simp at h
        exact hnl h.symm

/-! ## The CSV writer/reader round trip -/

theorem parse_quoted (f : List Char) :
    ∀ acc r rest, csvParseAux .inQuoted acc r (escapeQuotes f ++ '"' :: rest) =
      csvParseAux .quoteInQuoted (acc ++ f) r rest := by
  induction f with
  | nil =>
    intro acc r rest
    simp [escapeQuotes, csvParseAux]
  | cons c f' ih =>
    intro acc r rest
    by_cases hc : c = '"'
    · subst hc
      rw [show escapeQuotes ('"' :: f') = '"' :: '"' :: escapeQuotes f' from rfl]
      rw [List.cons_append, List.cons_append]
      rw [show csvParseAux .inQuoted acc r ('"' :: '"' :: (escapeQuotes f' ++ '"' :: rest)) =
        csvParseAux .quoteInQuoted acc r ('"' :: (escapeQuotes f' ++ '"' :: rest)) from by
          simp [csvParseAux]]
      rw [show csvParseAux .quoteInQuoted acc r ('"' :: (escapeQuotes f' ++ '"' :: rest)) =
        csvParseAux .inQuoted (acc ++ ['"']) r (escapeQuotes f' ++ '"' :: rest) from by
          simp [csvParseAux]]
      rw [ih (acc ++ ['"']) r rest]
      simp
    · rw [show escapeQuotes (c :: f') = c :: escapeQuotes f' from by
        simp [escapeQuotes, hc]]
      rw [List.cons_append]
      rw [show csvParseAux .inQuoted acc r (c :: (escapeQuotes f' ++ '"' :: rest)) =
        csvParseAux .inQuoted (acc ++ [c]) r (escapeQuotes f' ++ '"' :: rest) from by
          simp [csvParseAux, hc]]
      rw [ih (acc ++ [c]) r rest]
      simp

theorem parse_inField (f : List Char) :
    ∀ acc r rest, (∀ c ∈ f, c ≠ '\n' ∧ c ≠ ',') →
      csvParseAux .inField acc r (f ++ rest) =
        csvParseAux .inField (acc ++ f) r rest := by
  induction f with
  | nil =>
    intro acc r rest _
    simp
  | cons c f' ih =>
    intro acc r rest h
    have hc := h c (List.mem_cons_self c f')
    rw [List.cons_append]
    rw [show csvParseAux .inField acc r (c :: (f' ++ rest)) =
      csvParseAux .inField (acc ++ [c]) r (f' ++ rest) from by
        simp [csvParseAux, hc.1, hc.2]]
    rw [ih (acc ++ [c]) r rest (fun d hd => h d (List.mem_cons_of_mem c hd))]
    simp

theorem fieldNeedsQuote_eq_false (f : List Char) (h : fieldNeedsQuote f = false) :
    ∀ c ∈ f, c ≠ ',' ∧ c ≠ '"' ∧ c ≠ '\r' ∧ c ≠ '\n' := by
  intro c hc
  have := List.any_eq_false.mp h c hc
  simp at this
  tauto

theorem parse_field_nl (q : Bool) (f : List Char) (r : List (List Char))
    (rest : List Char) :
    csvParseAux .startField [] r (encodeField q f ++ '\n' :: rest) =
      (r ++ [f]) :: csvParseStart rest := by
  unfold encodeField
  by_cases hq : (fieldNeedsQuote f || q) = true
  · rw [if_pos hq]
    rw [show ('"' :: escapeQuotes f ++ ['"']) ++ '\n' :: rest =
      '"' :: (escapeQuotes f ++ '"' :: '\n' :: rest) from by simp]
    rw [show csvParseAux .startField [] r ('"' :: (escapeQuotes f ++ '"' :: '\n' :: rest)) =
      csvParseAux .inQuoted [] r (escapeQuotes f ++ '"' :: '\n' :: rest) from by
        simp [csvParseAux]]
    rw [parse_quoted f [] r ('\n' :: rest)]
    simp [csvParseAux]
  · rw [if_neg hq]
    have hclean := fieldNeedsQuote_eq_false f (by simpa using (Bool.or_eq_false_iff.mp
      (by simpa using hq)).1)
    cases f with
    | nil => simp [csvParseAux]
    | cons c f' =>
      have hc := hclean c (List.mem_cons_self c f')
      rw [List.cons_append]
      rw [show csvParseAux .startField [] r (c :: (f' ++ '\n' :: rest)) =
        csvParseAux .inField [c] r (f' ++ '\n' :: rest) from by
          simp [csvParseAux, hc.2.2.2, hc.2.1, hc.1]]
      rw [parse_inField f' [c] r ('\n' :: rest)
        (fun d hd => ⟨(hclean d (List.mem_cons_of_mem c hd)).2.2.2,
          (hclean d (List.mem_cons_of_mem c hd)).1⟩)]
      simp [csvParseAux]

theorem parse_field_comma (q : Bool) (f : List Char) (r : List (List Char))
    (rest : List Char) :
    csvParseAux .startField [] r (encodeField q f ++ ',' :: rest) =
      csvParseAux .startField [] (r ++ [f]) rest := by
  unfold encodeField
  by_cases hq : (fieldNeedsQuote f || q) = true
  · rw [if_pos hq]
    rw [show ('"' :: escapeQuotes f ++ ['"']) ++ ',' :: rest =
      '"' :: (escapeQuotes f ++ '"' :: ',' :: rest) from by simp]
    rw [show csvParseAux .startField [] r ('"' :: (escapeQuotes f ++ '"' :: ',' :: rest)) =
      csvParseAux .inQuoted [] r (escapeQuotes f ++ '"' :: ',' :: rest) from by
        simp [csvParseAux]]
    rw [parse_quoted f [] r (',' :: rest)]
    simp [csvParseAux]
  · rw [if_neg hq]
    have hclean := fieldNeedsQuote_eq_false f (by simpa using (Bool.or_eq_false_iff.mp
      (by simpa using hq)).1)
    cases f with
    | nil => simp [csvParseAux]
    | cons c f' =>
      have hc := hclean c (List.mem_cons_self c f')
      rw [List.cons_append]
      rw [show csvParseAux .startField [] r (c :: (f' ++ ',' :: rest)) =
        csvParseAux .inField [c] r (f' ++ ',' :: rest) from by
          simp [csvParseAux, hc.2.2.2, hc.2.1, hc.1]]
      rw [parse_inField f' [c] r (',' :: rest)
        (fun d hd => ⟨(hclean d (List.mem_cons_of_mem c hd)).2.2.2,
          (hclean d (List.mem_cons_of_mem c hd)).1⟩)]
      simp [csvParseAux]

theorem parse_fields (fields : List (List Char)) :
    ∀ r rest, fields ≠ [] →
      csvParseAux .startField [] r
          (joinWith ',' (fields.map (encodeField false)) ++ '\n' :: rest) =
        (r ++ fields) :: csvParseStart rest := by
  induction fields with
  | nil => intro _ _ h; exact absurd rfl h
  | cons f fs ih =>
    intro r rest _
    cases fs with
    | nil =>
      rw [show joinWith ',' ([f].map (encodeField false)) = encodeField false f from rfl]
      exact parse_field_nl false f r rest
    | cons f2 fs' =>
      rw [show joinWith ',' ((f :: f2 :: fs').map (encodeField false)) =
        encodeField false f ++ ',' :: joinWith ',' ((f2 :: fs').map (encodeField false))
        from rfl]
      rw [List.append_assoc, List.cons_append]
      rw [parse_field_comma false f r _]
      rw [ih (r ++ [f]) rest (by simp)]
      simp

/-- The first character of an encoded field is never a newline (it is
the opening quote, or a character of a field that needed no quoting). -/
theorem encodeField_head_ne_nl (q : Bool) (f : List Char) :
    (encodeField q f).head? ≠ some '\n' := by
  unfold encodeField
  by_cases hq : (fieldNeedsQuote f || q) = true
  · rw [if_pos hq]
    simp
  · rw [if_neg hq]
    cases f with
    | nil => simp
    | cons c f' =>
      have hflags : fieldNeedsQuote (c :: f') = false :=
        (Bool.or_eq_false_iff.mp (by simpa using hq)).1
      have hc := (fieldNeedsQuote_eq_false _ hflags c (List.mem_cons_self c f')).2.2.2
      intro e
      simp at e
      exact hc e

theorem csvParseStart_eq_startField (l : List Char)
    (h : l.head? ≠ some '\n') (hne : l ≠ []) :
    csvParseStart l = csvParseAux .startField [] [] l := by
  cases l with
  | nil => exact absurd rfl hne
  | cons c cs =>
    have hc : c ≠ '\n' := by
      intro e
      exact h (by rw [e]; rfl)
    by_cases h1 : c = '"'
    · subst h1
      simp [csvParseStart, csvParseAux]
    · by_cases h2 : c = ','
      · subst h2
        simp [csvParseStart, csvParseAux]
      · simp [csvParseStart, csvParseAux, hc, h1, h2]

theorem parse_record (row : List (List Char)) (rest : List Char) :
    csvParseStart (csvWriteRow row ++ '\n' :: rest) = row :: csvParseStart rest := by
  match row with
  | [] =>
    rw [show csvWriteRow [] = [] from rfl]
    simp [csvParseStart]
  | [f] =>
    rw [show csvWriteRow [f] = encodeField f.isEmpty f from rfl]
    have hne : encodeField f.isEmpty f ≠ [] := by
      unfold encodeField
      by_cases hq : (fieldNeedsQuote f || f.isEmpty) = true
      · rw [if_pos hq]; simp
      · rw [if_neg hq]
        intro e
        rw [e] at hq
        simp at hq
    cases he : encodeField f.isEmpty f with
    | nil => exact absurd he hne
    | cons c cs =>
      have hhead := encodeField_head_ne_nl f.isEmpty f
      rw [he] at hhead
      have hc : c ≠ '\n' := by
        intro e
        exact hhead (by rw [e]; rfl)
      rw [List.cons_append]
      rw [csvParseStart_eq_startField (c :: (cs ++ '\n' :: rest))
        (by simpa using hc) (by simp)]
      rw [← List.cons_append, ← he]
      have := parse_field_nl f.isEmpty f [] rest
      simpa using this
  | f1 :: f2 :: fs =>
    rw [show csvWriteRow (f1 :: f2 :: fs) =
      encodeField false f1 ++ ',' :: joinWith ',' ((f2 :: fs).map (encodeField false))
      from rfl]
    rw [List.append_assoc, List.cons_append]
    have hhead : (encodeField false f1 ++
        ',' :: (joinWith ',' ((f2 :: fs).map (encodeField false)) ++ '\n' :: rest)).head? ≠
        some '\n' := by
      cases he : encodeField false f1 with
      | nil => simp
      | cons c cs =>
        have := encodeField_head_ne_nl false f1
        rw [he] at this
        simpa using this
    rw [csvParseStart_eq_startField _ hhead (by
      intro e
      rcases List.append_eq_nil.mp e with ⟨-, h2⟩
      cases h2)]
    rw [parse_field_comma false f1 [] _]
    simp only [List.nil_append]
    rw [parse_fields (f2 :: fs) [f1] rest (by simp)]
    simp

theorem mem_joinWith (sep : Char) (ls : List (List Char)) (c : Char)
    (h : c ∈ joinWith sep ls) : c = sep ∨ ∃ x ∈ ls, c ∈ x := by
  induction ls with
  | nil => cases h
  | cons x xs ih =>
    cases xs with
    | nil =>
      right
      exact ⟨x, List.mem_cons_self x [], by simpa [joinWith] using h⟩
    | cons y ys =>
      rw [show joinWith sep (x :: y :: ys) = x ++ sep :: joinWith sep (y :: ys)
        from rfl] at h
      rcases List.mem_append.mp h with h' | h'
      · exact Or.inr ⟨x, List.mem_cons_self x _, h'⟩
      · rcases List.mem_cons.mp h' with h'' | h''
        · exact Or.inl h''
        · rcases ih h'' with h3 | ⟨z, hz, hcz⟩
          · exact Or.inl h3
          · exact Or.inr ⟨z, List.mem_cons_of_mem x hz, hcz⟩

theorem mem_escapeQuotes (f : List Char) (c : Char) (h : c ∈ escapeQuotes f) :
    c = '"' ∨ c ∈ f := by
  unfold escapeQuotes at h
  rcases List.mem_flatMap.mp h with ⟨a, ha, hc⟩
  by_cases hq : a = '"'
  · rw [if_pos hq] at hc
    simp at hc
    exact Or.inl hc
  · rw [if_neg hq] at hc
    simp at hc
    exact Or.inr (hc ▸ ha)

theorem mem_encodeField (q : Bool) (f : List Char) (c : Char)
    (h : c ∈ encodeField q f) : c = '"' ∨ c ∈ f := by
  unfold encodeField at h
  by_cases hq : (fieldNeedsQuote f || q) = true
  · rw [if_pos hq] at h
    rcases List.mem_cons.mp h with h' | h'
    · exact Or.inl h'
    · rcases List.mem_append.mp h' with h'' | h''
      · exact mem_escapeQuotes f c h''
      · simp at h''
        exact Or.inl h''
  · rw [if_neg hq] at h
    exact Or.inr h

theorem cr_not_mem_csvWriteRow (row : List (List Char))
    (h : ∀ f ∈ row, '\r' ∉ f) : '\r' ∉ csvWriteRow row := by
  intro hmem
  match row, hmem with
  | [f], hmem =>
    rcases mem_encodeField f.isEmpty f '\r' (by simpa [csvWriteRow] using hmem) with h' | h'
    · cases h'
    · exact h f (List.mem_cons_self f []) h'
  | [], hmem => cases hmem
  | f1 :: f2 :: fs, hmem =>
    rw [show csvWriteRow (f1 :: f2 :: fs) =
      joinWith ',' ((f1 :: f2 :: fs).map (encodeField false)) from rfl] at hmem
    rcases mem_joinWith ',' _ '\r' hmem with h' | ⟨x, hx, hcx⟩
    · cases h'
    · rcases List.mem_map.mp hx with ⟨f, hf, rfl⟩
      rcases mem_encodeField false f '\r' hcx with h'' | h''
      · cases h''
      · exact h f hf h''

/-- The central round trip: writing rows with `csv.writer` and reading
the file back through text-mode newline translation and `csv.reader`
recovers the rows exactly, provided no field contains a carriage return
(the only character the translation can corrupt). -/
theorem csvParse_univ_csvWriteAll (rows : List (List (List Char)))
    (h : ∀ row ∈ rows, ∀ f ∈ row, '\r' ∉ f) :
    csvParse (univNewlines (csvWriteAll rows)) = rows := by
  induction rows with
  | nil => rfl
  | cons row rest ih =>
    have hrow : '\r' ∉ csvWriteRow row :=
      cr_not_mem_csvWriteRow row (h row (List.mem_cons_self row rest))
    rw [show csvWriteAll (row :: rest) =
      csvWriteRow row ++ '\r' :: '\n' :: csvWriteAll rest from by
        simp [csvWriteAll]]
    rw [univNewlines_append_crlf _ _ hrow]
    unfold csvParse
    rw [parse_record row _]
    exact congrArg (row :: ·) (ih (fun r hr => h r (List.mem_cons_of_mem row hr)))

/-- The rows produced by `txt_to_csv` never contain a carriage return:
the text-mode read has already translated every `'\r'` away. -/
theorem txtRows_no_cr (content : List Char) :
    ∀ row ∈ txtRows content, ∀ f ∈ row, '\r' ∉ f := by
  intro row hrow f hf hcr
  unfold txtRows at hrow
  rcases List.mem_map.mp hrow with ⟨line, hline, rfl⟩
  have h1 : '\r' ∈ pyStrip line :=
    mem_of_mem_splitOnChar ',' (pyStrip line) f '\r' hf hcr
  have h2 : '\r' ∈ line := mem_of_mem_pyStrip line '\r' h1
  have h3 : '\r' ∈ univNewlines content :=
    mem_of_mem_readlines (univNewlines content) line '\r' hline h2
  exact univNewlines_no_cr content h3

end ConvertFile

namespace ConvertFile

/-! ## Claims C3, C4, C6: the tabular converters -/

/-- **C3** (amended form).  For every input text file, the CSV file
written by `txt_to_csv` parses back into exactly one CSV row per input
line, the `i`-th row being the `i`-th line with leading AND trailing
whitespace stripped (Python `str.strip()`) and then split on
`","`; a blank line yields a row with a single empty field. -/
theorem c3_rows_per_line (content : List Char) :
    csvParse (univNewlines (txt_to_csv content)) = txtRows content
    ∧ txtRows content =
        (readlines (univNewlines content)).map
          (fun line => splitOnChar ',' (pyStrip line))
    ∧ (txtRows content).length = (readlines (univNewlines content)).length
    ∧ ∀ i : Nat, (readlines (univNewlines content))[i]? = some ['\n'] →
        (txtRows content)[i]? = some [[]] := by
  refine ⟨csvParse_univ_csvWriteAll _ (txtRows_no_cr content), rfl, by simp [txtRows], ?_⟩
  intro i hi
  unfold txtRows
  rw [List.getElem?_map, hi]
  rfl

/-- Witness for the amended C3: the blank line of the one-line file
`"\n"` yields the row with a single empty field. -/
theorem c3_rows_per_line_witness :
    (txtRows "\n".data)[0]? = some [[]] :=
  (c3_rows_per_line "\n".data).2.2.2 0 (by decide)

/-- A reading of C3's words "the i-th line with its TRAILING
newline/whitespace stripped": rows obtained by stripping only at the
end of each line (Python `str.rstrip()`).  The code strips both ends, so
this differs from `txtRows` on lines with leading whitespace. -/
def specTrailingOnlyRows (content : List Char) : List (List (List Char)) :=
  (readlines (univNewlines content)).map
    (fun line => splitOnChar ',' (pyRstrip line))

/-- **C3** (counterexample).  On the one-line file `" a\n"` the claim's
row (trailing strip only) is `[" a"]`, but the code strips the leading
blank too and writes the row `["a"]`. -/
theorem c3_counterexample :
    txtRows " a\n".data = [[['a']]]
    ∧ specTrailingOnlyRows " a\n".data = [[[' ', 'a']]]
    ∧ txtRows " a\n".data ≠ specTrailingOnlyRows " a\n".data
    ∧ csvParse (univNewlines (txt_to_csv " a\n".data)) = [[['a']]] := by
  refine ⟨by decide, by decide, by decide, by decide⟩

/-- **C4** (amended form).  The text → CSV → text round trip is the
identity on files in which no field contains a comma, provided
additionally that the file contains no carriage return and that every
line consists of its stripped form followed by the newline terminator
(i.e. every line ends in `'\n'` and carries no other leading or trailing
whitespace) — the conditions the counterexample shows to be necessary. -/
theorem c4_roundtrip_id (content : List Char)
    (_hcomma : ∀ row ∈ txtRows content, ∀ f ∈ row, ',' ∉ f)
    (hcr : '\r' ∉ content)
    (hlines : ∀ line ∈ readlines content, pyStrip line ++ ['\n'] = line) :
    txtCsvRoundTrip content = content := by
  have huniv : univNewlines content = content := univNewlines_of_no_cr content hcr
  unfold txtCsvRoundTrip csv_to_txt txt_to_csv
  rw [csvParse_univ_csvWriteAll _ (txtRows_no_cr content)]
  unfold txtRows
  rw [huniv, List.map_map]
  have hcongr : ∀ line ∈ readlines content,
      ((fun row => joinWith ',' row ++ ['\n']) ∘
        (fun line => splitOnChar ',' (pyStrip line))) line = id line := by
    intro line hl
    simp only [Function.comp_apply, id_eq]
    rw [joinWith_splitOnChar]
    exact hlines line hl
  rw [List.map_congr_left hcongr, List.map_id]
  exact readlines_flatten content

/-- Witness for the amended C4 on the two-line file `"a,b\nc\n"`. -/
theorem c4_roundtrip_id_witness :
    txtCsvRoundTrip "a,b\nc\n".data = "a,b\nc\n".data :=
  c4_roundtrip_id "a,b\nc\n".data (by decide) (by decide) (by decide)

/-- **C4** (counterexample).  The file `"a"` has no comma in any field,
yet the round trip appends the missing final newline: the claim's
comma condition alone does not give identity. -/
theorem c4_counterexample :
    (∀ row ∈ txtRows "a".data, ∀ f ∈ row, ',' ∉ f)
    ∧ txtCsvRoundTrip "a".data = "a\n".data
    ∧ txtCsvRoundTrip "a".data ≠ "a".data := by
  refine ⟨by decide, by decide, by decide⟩

/-- **C6** (amended form).  For every CSV file whose parsed records are
a header row (nonempty, with pairwise-distinct column names — required
for the association-list model of the Python `dict` to be faithful)
followed by data rows each of exactly the header's width, `csv_to_json`
produces one JSON object per data row in order, whose keys are exactly
the header columns and whose values are all strings. -/
theorem c6_dict_rows (content : List Char) (header : List (List Char))
    (dataRows : List (List (List Char)))
    (hparse : csvParse (univNewlines content) = header :: dataRows)
    (__hnodup : header.Nodup) (hne : header ≠ [])
    (hlen : ∀ r ∈ dataRows, r.length = header.length) :
    csv_to_json content =
      dataRows.map (fun r => (header.zip r).map (fun p => (some p.1, DVal.str p.2)))
    ∧ (csv_to_json content).length = dataRows.length
    ∧ (∀ d ∈ csv_to_json content, d.map Prod.fst = header.map some)
    ∧ (∀ d ∈ csv_to_json content, ∀ kv ∈ d, kv.2.isStr = true) := by
  have hlen0 : 0 < header.length := List.length_pos.mpr hne
  have hfilter : dataRows.filter (fun r => r ≠ []) = dataRows := by
    apply List.filter_eq_self.mpr
    intro r hr
    have : r.length = header.length := hlen r hr
    simp only [ne_eq, decide_eq_true_eq]
    intro e
    rw [e] at this
    simp at this
    omega
  have hmk : ∀ r ∈ dataRows, mkDict header r =
      (header.zip r).map (fun p => (some p.1, DVal.str p.2)) := by
    intro r hr
    unfold mkDict
    rw [if_neg (by rw [hlen r hr]; omega)]
    rw [hlen r hr, List.drop_length]
    simp
  have hmain : csv_to_json content =
      dataRows.map (fun r => (header.zip r).map (fun p => (some p.1, DVal.str p.2))) := by
    unfold csv_to_json dictReaderRows
    rw [hparse]
    show ((dataRows.filter (fun r => r ≠ [])).map (mkDict header)) = _
    rw [hfilter]
    exact List.map_congr_left hmk
  refine ⟨hmain, by rw [hmain]; simp, ?_, ?_⟩
  · intro d hd
    rw [hmain] at hd
    rcases List.mem_map.mp hd with ⟨r, hr, rfl⟩
    rw [List.map_map]
    have hzip : (header.zip r).map (Prod.fst ∘ fun p => ((some p.1 : DKey), DVal.str p.2)) =
        (header.zip r).map (fun p => (some p.1 : DKey)) := rfl
    rw [hzip]
    have : (header.zip r).map (fun p => (some p.1 : DKey)) =
        ((header.zip r).map Prod.fst).map some := by
      rw [List.map_map]
      rfl
    rw [this, List.map_fst_zip header r (by rw [hlen r hr])]
  · intro d hd kv hkv
    rw [hmain] at hd
    rcases List.mem_map.mp hd with ⟨r, hr, rfl⟩
    rcases List.mem_map.mp hkv with ⟨p, hp, rfl⟩
    rfl

/-- Witness for the amended C6 on the file `"a,b\n1,2\n"`. -/
theorem c6_dict_rows_witness :
    csv_to_json "a,b\n1,2\n".data =
      [[(some ['a'], DVal.str ['1']), (some ['b'], DVal.str ['2'])]] := by
  have h := (c6_dict_rows "a,b\n1,2\n".data [['a'], ['b']] [[['1'], ['2']]]
    (by decide) (by decide) (by decide) (by decide)).1
  simpa using h

/-- **C6** (counterexample).  On the CSV file `"a,b\n1\n"` — a header
and one data row — `csv.DictReader` fills the missing column `b` with
`None` (serialised as JSON `null`), so not every value of the produced
object is a string, contradicting the claim as stated. -/
theorem c6_counterexample :
    csvParse (univNewlines "a,b\n1\n".data) = [[['a'], ['b']], [['1']]]
    ∧ csv_to_json "a,b\n1\n".data =
        [[(some ['a'], DVal.str ['1']), (some ['b'], DVal.null)]]
    ∧ ¬ (∀ d ∈ csv_to_json "a,b\n1\n".data, ∀ kv ∈ d, kv.2.isStr = true) := by
  refine ⟨by decide, by decide, by decide⟩

end ConvertFile
